import Mathlib

/-!
Verification of the WebSocket subsystem of `microweb` (src/ws.go, src/wsclient.go):
a shallow embedding of the Payload (`WsData`) JSON document type, the Hub command
loop, the client send path, the server read pump's termination handling, and the
resilient client connector loop, with theorems checking the specification's
claims against this embedding.
-/

/-! ## Go dynamic values (`interface{}` as stored in `map[string]interface{}`) -/

mutual
/-- Go `interface{}` values as they occur as `WsData` map values.  `vInt`
covers Go `int` and `int64` (both are handled identically by the code);
`vFloat` models Go `float64` by an exact rational (JSON numbers are finite
decimals); `vBad` stands for a value `encoding/json.Marshal` rejects (e.g. a
channel or function value). -/
inductive GoVal : Type where
  | vNull : GoVal
  | vBool (b : Bool) : GoVal
  | vInt (n : Int) : GoVal
  | vFloat (q : Rat) : GoVal
  | vStr (s : String) : GoVal
  | vArr (l : GoList) : GoVal
  | vObj (l : GoKVs) : GoVal
  | vBad : GoVal
  deriving DecidableEq
/-- A Go `[]interface{}` value. -/
inductive GoList : Type where
  | nil : GoList
  | cons (hd : GoVal) (tl : GoList) : GoList
  deriving DecidableEq
/-- A Go `map[string]interface{}` value, as an association list enumerating
the map's entries (Go maps are unordered; lookup-level properties are the
meaningful ones). -/
inductive GoKVs : Type where
  | nil : GoKVs
  | cons (k : String) (v : GoVal) (tl : GoKVs) : GoKVs
  deriving DecidableEq
end

/-! ## JSON documents (the wire level: what a byte sequence can denote) -/

mutual
/-- A JSON value as written on the wire.  JSON has a single number kind
(`jNum`), which is what forces `encoding/json` to decode every number to
`float64`. -/
inductive Json : Type where
  | jNull : Json
  | jBool (b : Bool) : Json
  | jNum (q : Rat) : Json
  | jStr (s : String) : Json
  | jArr (l : JList) : Json
  | jObj (l : JKVs) : Json
  deriving DecidableEq
/-- A JSON array's element list. -/
inductive JList : Type where
  | nil : JList
  | cons (hd : Json) (tl : JList) : JList
  deriving DecidableEq
/-- A JSON object's member list, in textual order. -/
inductive JKVs : Type where
  | nil : JKVs
  | cons (k : String) (v : Json) (tl : JKVs) : JKVs
  deriving DecidableEq
end

/-- A byte sequence (`[]byte`) as seen by `encoding/json`: every byte sequence
either is a well-formed JSON document denoting some `Json` value, or fails to
parse.  `malformed` also covers Go's `nil` byte slice. -/
inductive JsonBytes : Type where
  | wf (j : Json) : JsonBytes
  | malformed : JsonBytes
  deriving DecidableEq

/-! ## Keys, lookups, and the sort `encoding/json.Marshal` applies to maps -/

/-- The keys of a Go map value, in entry order. -/
def goKeys : GoKVs → List String
  | .nil => []
  | .cons k _ tl => k :: goKeys tl

/-- The keys of a JSON object, in textual order. -/
def jKeys : JKVs → List String
  | .nil => []
  | .cons k _ tl => k :: jKeys tl

/-- Go map indexing `w[key]`: the value stored at `key`, if present. -/
def lookupGo (key : String) : GoKVs → Option GoVal
  | .nil => none
  | .cons k v tl => if key = k then some v else lookupGo key tl

/-- Lookup of a member in a JSON object (first occurrence). -/
def lookupJ (key : String) : JKVs → Option Json
  | .nil => none
  | .cons k v tl => if key = k then some v else lookupJ key tl

/-- Insert a member into a JSON object member list sorted by key (ascending,
the order `encoding/json.Marshal` emits map keys in). -/
def insertJ (k : String) (v : Json) : JKVs → JKVs
  | .nil => .cons k v .nil
  | .cons k2 v2 tl =>
    if k < k2 then .cons k v (.cons k2 v2 tl)
    else .cons k2 v2 (insertJ k v tl)

/-- Sort a JSON object's member list by key (insertion sort), as
`encoding/json.Marshal` does for Go maps. -/
def sortJKVs : JKVs → JKVs
  | .nil => .nil
  | .cons k v tl => insertJ k v (sortJKVs tl)

/-- `keys` is strictly ascending (hence duplicate-free). -/
def strSorted : List String → Bool
  | [] => true
  | [_] => true
  | a :: b :: tl => (decide (a < b)) && strSorted (b :: tl)

/-! ## `encoding/json.Marshal` and `Unmarshal` on dynamic values

The byte-level printer/parser pair of Go's standard `encoding/json` package is
third-party to this repository; we model it at the document level: `Marshal`
produces the JSON document the emitted bytes denote (or fails), and
`Unmarshal` of a well-formed document produces the dynamic value Go builds
for it (numbers always become `float64`, i.e. `vFloat`). -/

mutual
/-- `json.Marshal` of one dynamic value, as the JSON document it emits.
Fails (returns `none`) on unmarshalable values (`vBad`).  Map keys are
emitted in sorted order. -/
def marshalVal : GoVal → Option Json
  | .vNull => some .jNull
  | .vBool b => some (.jBool b)
  | .vInt n => some (.jNum (n : Rat))
  | .vFloat q => some (.jNum q)
  | .vStr s => some (.jStr s)
  | .vArr l => (marshalList l).map .jArr
  | .vObj l => (marshalKVs l).map (fun jl => .jObj (sortJKVs jl))
  | .vBad => none
/-- `json.Marshal` of an array's elements. -/
def marshalList : GoList → Option JList
  | .nil => some .nil
  | .cons v tl =>
    match marshalVal v, marshalList tl with
    | some j, some jtl => some (.cons j jtl)
    | _, _ => none
/-- `json.Marshal` of a map's entries (before key sorting). -/
def marshalKVs : GoKVs → Option JKVs
  | .nil => some .nil
  | .cons k v tl =>
    match marshalVal v, marshalKVs tl with
    | some j, some jtl => some (.cons k j jtl)
    | _, _ => none
end

mutual
/-- `json.Unmarshal` of a JSON value into `interface{}`: every number becomes
a `float64`. -/
def unmarshalVal : Json → GoVal
  | .jNull => .vNull
  | .jBool b => .vBool b
  | .jNum q => .vFloat q
  | .jStr s => .vStr s
  | .jArr l => .vArr (unmarshalList l)
  | .jObj l => .vObj (unmarshalJKVs l)
/-- `json.Unmarshal` of a JSON array's elements. -/
def unmarshalList : JList → GoList
  | .nil => .nil
  | .cons j tl => .cons (unmarshalVal j) (unmarshalList tl)
/-- `json.Unmarshal` of a JSON object's members. -/
def unmarshalJKVs : JKVs → GoKVs
  | .nil => .nil
  | .cons k j tl => .cons k (unmarshalVal j) (unmarshalJKVs tl)
end

mutual
/-- The image of JSON decoding: dynamic values that `json.Unmarshal` can
produce.  No `vInt`, no `vBad`, and nested objects carry their keys in the
canonical strictly sorted order (the canonical representative of an unordered
Go map in this embedding). -/
def decodedVal : GoVal → Bool
  | .vNull => true
  | .vBool _ => true
  | .vInt _ => false
  | .vFloat _ => true
  | .vStr _ => true
  | .vArr l => decodedList l
  | .vObj l => decodedKVs l && strSorted (goKeys l)
  | .vBad => false
/-- All elements decoded. -/
def decodedList : GoList → Bool
  | .nil => true
  | .cons v tl => decodedVal v && decodedList tl
/-- All entry values decoded. -/
def decodedKVs : GoKVs → Bool
  | .nil => true
  | .cons _ v tl => decodedVal v && decodedKVs tl
end

/-! ## `WsData` (the Payload) — src/ws.go lines 39–126 -/

/-- `WsData` is Go's `map[string]interface{}` with typed getters
(src/ws.go:40). -/
abbrev WsData := GoKVs

/-- `NewWsData` (src/ws.go:43–49): unmarshal JSON bytes into a map; on any
unmarshal error the result is an empty map.  A well-formed document that is
not an object (including `null`, which Go leaves as a nil map) also yields a
map with zero keys. -/
def NewWsData : JsonBytes → WsData
  | .wf (.jObj jl) => unmarshalJKVs jl
  | _ => .nil

/-- `WsData.ToJSON` (src/ws.go:123–126): `data, _ := json.Marshal(w)`; a
marshal error is ignored, leaving `nil` bytes (which are malformed JSON). -/
def ToJSON (w : WsData) : JsonBytes :=
  match marshalKVs w with
  | some jl => .wf (.jObj (sortJKVs jl))
  | none => .malformed

/-- Go's `int(f)` conversion from `float64`: truncation toward zero. -/
def ratTrunc (q : Rat) : Int := Int.tdiv q.num q.den

/-- `WsData.String` (src/ws.go:57–64): the stored value if it is a string,
else `""`. -/
def wsString (w : WsData) (key : String) : String :=
  match lookupGo key w with
  | some (.vStr s) => s
  | _ => ""

/-- `WsData.Int` (src/ws.go:67–79): `int`/`int64` values returned as is,
`float64` values truncated by Go's `int(val)` conversion, anything else 0. -/
def wsInt (w : WsData) (key : String) : Int :=
  match lookupGo key w with
  | some (.vInt n) => n
  | some (.vFloat q) => ratTrunc q
  | _ => 0

/-- `WsData.Float` (src/ws.go:82–89): the stored value if it is a `float64`,
else `0.0`. -/
def wsFloat (w : WsData) (key : String) : Rat :=
  match lookupGo key w with
  | some (.vFloat q) => q
  | _ => 0

/-- `WsData.Bool` (src/ws.go:92–99): the stored value if it is a `bool`,
else `false`. -/
def wsBool (w : WsData) (key : String) : Bool :=
  match lookupGo key w with
  | some (.vBool b) => b
  | _ => false

/-- Number of keys in a `WsData`. -/
def goKVsLen : GoKVs → Nat
  | .nil => 0
  | .cons _ _ tl => goKVsLen tl + 1

/-- "Same key/value set": the two maps agree on lookup at every key
(order-independent comparison of Payloads). -/
def kvSetEq (a b : WsData) : Prop := ∀ k, lookupGo k a = lookupGo k b

/-! ## The Hub — src/ws.go lines 222–352

The hub's client map is mutated only by the command loop `WsHub.Run`.  Each
registered client owns a bounded outbound queue (`send chan []byte`); a
non-blocking channel send (`select`/`default`) succeeds exactly when the
buffer is below capacity.  Messages are opaque byte slices, so the model is
polymorphic in the message type `M`. -/

/-- The hub-visible state of one `Client` (src/ws.go:135–142): its buffered
outbound channel, as the queued messages plus the buffer capacity (256 at
construction, src/ws.go:396). -/
structure HClient (M : Type) where
  queue : List M
  cap : Nat
  deriving DecidableEq, Repr

/-- The hub's client map `map[string]*Client` (src/ws.go:224), as an
association list. -/
abbrev HubClients (M : Type) := List (String × HClient M)

/-- Go map indexing into the hub's client map. -/
def lookupC {M : Type} (id : String) : HubClients M → Option (HClient M)
  | [] => none
  | (k, c) :: tl => if id = k then some c else lookupC id tl

/-- Go `delete(clients, id)`. -/
def removeC {M : Type} (id : String) (h : HubClients M) : HubClients M :=
  h.filter (fun p => p.1 ≠ id)

/-- The `unregister` case of `WsHub.Run` (src/ws.go:257–263): if the client's
id is present, delete it and close its queue; otherwise do nothing.  The
second component records which queues were closed by the command. -/
def hubUnregister {M : Type} (h : HubClients M) (id : String) :
    HubClients M × List String :=
  match lookupC id h with
  | some _ => (removeC id h, [id])
  | none => (h, [])

/-- The `broadcast` case of `WsHub.Run` (src/ws.go:265–275): for every
client, a non-blocking send of the message; on a full queue the client's
queue is closed and the client deleted from the map. -/
def hubBroadcast {M : Type} (msg : M) : HubClients M → HubClients M × List String
  | [] => ([], [])
  | (id, c) :: tl =>
    let r := hubBroadcast msg tl
    if c.queue.length < c.cap then
      ((id, ⟨c.queue ++ [msg], c.cap⟩) :: r.1, r.2)
    else
      (r.1, id :: r.2)

/-- The `sendMsg` case of `WsHub.Run` (src/ws.go:277–287): look the target id
up; if absent do nothing; if present, non-blocking send, closing and deleting
the client on a full queue. -/
def hubSendTo {M : Type} (h : HubClients M) (id : String) (msg : M) :
    HubClients M × List String :=
  match lookupC id h with
  | none => (h, [])
  | some c =>
    if c.queue.length < c.cap then
      ((h.map fun p => if p.1 = id then (p.1, ⟨p.2.queue ++ [msg], p.2.cap⟩) else p), [])
    else
      (removeC id h, [id])

/-- `WsHub.Close` (src/ws.go:330–338): look the id up under the read lock; if
present, submit an unregister command (processed as `hubUnregister`); if
absent, do nothing. -/
def hubClose {M : Type} (h : HubClients M) (id : String) :
    HubClients M × List String :=
  match lookupC id h with
  | some _ => hubUnregister h id
  | none => (h, [])

/-- `WsHub.Count` (src/ws.go:341–345): `len(h.clients)`. -/
def hubCount {M : Type} (h : HubClients M) : Nat := h.length

/-- `Client.Send` (src/ws.go:163–182) followed by the hub's processing of the
command it may issue: a non-blocking send on the client's own queue; if the
queue is full the message is dropped and the client is submitted to
`hub.unregister` ("Channel full, close connection"), which removes it from
the map and closes its queue. -/
def clientSend {M : Type} (h : HubClients M) (id : String) (msg : M) :
    HubClients M × List String :=
  match lookupC id h with
  | none => (h, [])
  | some c =>
    if c.queue.length < c.cap then
      ((h.map fun p => if p.1 = id then (p.1, ⟨p.2.queue ++ [msg], p.2.cap⟩) else p), [])
    else
      hubUnregister h id

/-! ## Server read pump termination — src/ws.go lines 419–472 -/

/-- Lifecycle events observable through registered handlers. -/
inductive WsEvent : Type where
  | openEv : WsEvent
  | closeEv : WsEvent
  | errorEv : WsEvent
  | reconnectingEv : WsEvent
  deriving DecidableEq, Repr

/-- A read error terminating a pump: either a WebSocket close frame with a
status code, or a non-close error (network failure, read-deadline expiry on
idle timeout, oversized frame). -/
inductive ReadErr : Type where
  | closeError (code : Int) : ReadErr
  | netError : ReadErr
  deriving DecidableEq, Repr

/-- `websocket.IsUnexpectedCloseError(err, CloseGoingAway, CloseAbnormalClosure)`
(gorilla/websocket): true exactly when the error is a close frame whose status
code is neither 1001 (going away) nor 1006 (abnormal closure).  Non-close
errors (including deadline expiry) are never unexpected-close errors. -/
def isUnexpectedCloseError : ReadErr → Bool
  | .closeError c => (c != 1001) && (c != 1006)
  | .netError => false

/-- The error path of `readPump` (src/ws.go:433–452 plus the deferred
unregister at 420–423): emit an `error` event only for unexpected close
errors, always emit a `close` event, and always submit the client to
`hub.unregister`. -/
def readPumpTerminate {M : Type} (h : HubClients M) (id : String) (e : ReadErr) :
    List WsEvent × HubClients M :=
  ((if isUnexpectedCloseError e then [.errorEv] else []) ++ [.closeEv],
   (hubUnregister h id).1)

/-! ## Resilient client connector — src/wsclient.go lines 110–167

`WsClient.Connect` loops on a ticker.  Each effective iteration is one of:
the owning context is done; the running flag was cleared by `Close`; a dial
attempt fails; or a dial attempt succeeds and the read/write session runs
until disconnection (the session may emit an `error` event from its read
loop).  `attemptCount` is 0 at start and after every successful dial, and the
`reconnecting` event fires exactly when a not-connected iteration begins with
`attemptCount == 0`. -/

/-- One effective iteration's input to the connector control loop. -/
inductive TickInput : Type where
  | ctxDone : TickInput
  | stopReq : TickInput
  | dialFail : TickInput
  | dialOk (sessionErr : Bool) : TickInput
  deriving DecidableEq, Repr

/-- Inputs that stop the control loop: context cancellation or the explicit
stop flag. -/
def isStopInput : TickInput → Bool
  | .ctxDone => true
  | .stopReq => true
  | _ => false

/-- `WsClient.Connect` (src/wsclient.go:112–167) over a finite input trace:
the events fired, and whether the loop exited.  On `ctxDone`/`stopReq` it
fires `close` and exits, ignoring the rest of the trace (the loop is never
re-entered).  On a dial attempt with `attemptCount = 0` it first fires
`reconnecting`; a failed dial increments `attemptCount`; a successful dial
fires `open`, runs the session (whose read loop may fire `error`), and resets
`attemptCount` to 0. -/
def connectRun : Nat → List TickInput → List WsEvent × Bool
  | _, [] => ([], false)
  | _, .ctxDone :: _ => ([.closeEv], true)
  | _, .stopReq :: _ => ([.closeEv], true)
  | cnt, .dialFail :: rest =>
    let r := connectRun (cnt + 1) rest
    ((if cnt = 0 then [.reconnectingEv] else []) ++ r.1, r.2)
  | cnt, .dialOk se :: rest =>
    let r := connectRun 0 rest
    ((if cnt = 0 then [.reconnectingEv] else []) ++
      [.openEv] ++ (if se then [.errorEv] else []) ++ r.1, r.2)

/-! ## Claim C5: decoding never fails; non-object input yields zero keys -/

/-- Whether a byte sequence is a well-formed JSON document whose top level is
an object. -/
def isJsonObjectB : JsonBytes → Bool
  | .wf (.jObj _) => true
  | _ => false

/-- C5: for every byte sequence `b`, `NewWsData b` is a total function (no
failure path), and when `b` is not a well-formed JSON object the result is a
Payload with zero keys. -/
theorem spec_c5_malformed_decodes_empty (b : JsonBytes)
    (hb : isJsonObjectB b = false) : goKVsLen (NewWsData b) = 0 := by
  cases b with
  | malformed => rfl
  | wf j => cases j <;> first | rfl | simp [isJsonObjectB] at hb

theorem spec_c5_witness :
    isJsonObjectB .malformed = false ∧ goKVsLen (NewWsData .malformed) = 0 :=
  ⟨by decide, spec_c5_malformed_decodes_empty .malformed (by decide)⟩

/-! ## Claim C6: typed accessors return zero values on absence or wrong type -/

/-- The values `WsData.String` accepts (its type assertion). -/
def isStrV : GoVal → Bool
  | .vStr _ => true
  | _ => false

/-- The values `WsData.Int`'s type switch accepts (`int`, `float64`, `int64`). -/
def isNumV : GoVal → Bool
  | .vInt _ => true
  | .vFloat _ => true
  | _ => false

/-- The values `WsData.Float` accepts (`float64` only). -/
def isFloatV : GoVal → Bool
  | .vFloat _ => true
  | _ => false

/-- The values `WsData.Bool` accepts (`bool` only). -/
def isBoolV : GoVal → Bool
  | .vBool _ => true
  | _ => false

/-- C6: each typed accessor returns its documented zero value (empty string,
0, 0.0, false) whenever the key is absent, and whenever the stored value is
of a type the accessor does not accept; absence is never an error (the
accessors are total functions). -/
theorem spec_c6_accessor_zero_values (w : WsData) (key : String) :
    (lookupGo key w = none →
      wsString w key = "" ∧ wsInt w key = 0 ∧ wsFloat w key = 0 ∧ wsBool w key = false) ∧
    (∀ v, lookupGo key w = some v →
      (isStrV v = false → wsString w key = "") ∧
      (isNumV v = false → wsInt w key = 0) ∧
      (isFloatV v = false → wsFloat w key = 0) ∧
      (isBoolV v = false → wsBool w key = false)) := by
  constructor
  · intro habs
    simp [wsString, wsInt, wsFloat, wsBool, habs]
  · intro v hv
    cases v <;>
      refine ⟨?_, ?_, ?_, ?_⟩ <;>
        intro hty <;>
          simp_all [isStrV, isNumV, isFloatV, isBoolV,
            wsString, wsInt, wsFloat, wsBool]

theorem spec_c6_witness :
    wsString (GoKVs.cons "a" (.vInt 1) .nil) "b" = "" ∧
    wsFloat (GoKVs.cons "a" (.vInt 1) .nil) "a" = 0 :=
  ⟨((spec_c6_accessor_zero_values (GoKVs.cons "a" (.vInt 1) .nil) "b").1 (by decide)).1,
   ((spec_c6_accessor_zero_values (GoKVs.cons "a" (.vInt 1) .nil) "a").2
      (.vInt 1) (by decide)).2.2.1 (by decide)⟩

/-! ## Claim C10: `Int` accessor truncates stored floats -/

/-- C10 amended: when the stored value is a `float64` (as every JSON number
decodes to), `WsData.Int` returns its truncation toward zero (Go's
`int(val)`) rather than the zero-value fallback; stored `int`/`int64` values
are returned as is; absence or a non-numeric value yields the fallback 0.
(The truncation itself can equal 0 — e.g. for `0.5` — so the stated "returns
0 only when the key is absent or holds a non-numeric value" does not hold
literally.) -/
theorem spec_c10_int_truncates_floats (w : WsData) (key : String) :
    (∀ q, lookupGo key w = some (.vFloat q) → wsInt w key = ratTrunc q) ∧
    (∀ n, lookupGo key w = some (.vInt n) → wsInt w key = n) ∧
    ((lookupGo key w = none ∨ ∃ v, lookupGo key w = some v ∧ isNumV v = false) →
      wsInt w key = 0) := by
  refine ⟨?_, ?_, ?_⟩
  · intro q hq; simp [wsInt, hq]
  · intro n hn; simp [wsInt, hn]
  · rintro (habs | ⟨v, hv, hty⟩)
    · simp [wsInt, habs]
    · cases v <;> simp_all [isNumV, wsInt]

theorem spec_c10_witness :
    wsInt (GoKVs.cons "x" (.vFloat (Rat.mk' 7 2)) .nil) "x" = ratTrunc (Rat.mk' 7 2) ∧
    ratTrunc (Rat.mk' 7 2) = 3 :=
  ⟨(spec_c10_int_truncates_floats (GoKVs.cons "x" (.vFloat (Rat.mk' 7 2)) .nil) "x").1
      (Rat.mk' 7 2) (by decide),
   by decide⟩

/-! ## Hub lemmas -/

theorem lookupC_removeC {M : Type} (id : String) (h : HubClients M) :
    lookupC id (removeC id h) = none := by
  induction h with
  | nil => rfl
  | cons p tl ih =>
    obtain ⟨k, c⟩ := p
    by_cases hp : k = id
    · simpa [removeC, List.filter_cons, hp] using ih
    · have hne : id ≠ k := fun h' => hp h'.symm
      simp [removeC, List.filter_cons, hp, lookupC, hne]
      simpa [removeC] using ih

/-! ## Claim C4: commands for an unknown id are no-ops -/

/-- C4: processing `sendTo(id, msg)`, `close(id)`, or `unregister` for an id
absent from the client map changes nothing: the map is untouched, no queue is
closed (so no double close), and `count()` is unaffected; each command is a
total function (no panic path). -/
theorem spec_c4_unknown_id_noop {M : Type} (h : HubClients M) (id : String) (msg : M)
    (habs : lookupC id h = none) :
    hubSendTo h id msg = (h, []) ∧
    hubUnregister h id = (h, []) ∧
    hubClose h id = (h, []) ∧
    hubCount (hubSendTo h id msg).1 = hubCount h := by
  refine ⟨?_, ?_, ?_, ?_⟩ <;> simp [hubSendTo, hubUnregister, hubClose, habs]

theorem spec_c4_witness :
    lookupC "b" [("a", (⟨[], 2⟩ : HClient Nat))] = none ∧
    hubSendTo [("a", (⟨[], 2⟩ : HClient Nat))] "b" 7 = ([("a", ⟨[], 2⟩)], []) ∧
    hubUnregister [("a", (⟨[], 2⟩ : HClient Nat))] "b" = ([("a", ⟨[], 2⟩)], []) ∧
    hubClose [("a", (⟨[], 2⟩ : HClient Nat))] "b" = ([("a", ⟨[], 2⟩)], []) :=
  ⟨by decide,
   (spec_c4_unknown_id_noop [("a", ⟨[], 2⟩)] "b" 7 (by decide)).1,
   (spec_c4_unknown_id_noop [("a", ⟨[], 2⟩)] "b" 7 (by decide)).2.1,
   (spec_c4_unknown_id_noop [("a", ⟨[], 2⟩)] "b" 7 (by decide)).2.2.1⟩

/-! ## Claim C2: `Client.Send` on a full queue -/

/-- Counterexample to C2 as stated: with client "a" registered and its queue
at capacity, `Client.Send` does not leave the connection registered — the hub
removes it and closes its queue ("Channel full, close connection",
src/ws.go:176–181). -/
theorem spec_c2_counterexample :
    lookupC "a" (clientSend [("a", (⟨[5], 1⟩ : HClient Nat))] "a" 7).1 = none ∧
    (clientSend [("a", (⟨[5], 1⟩ : HClient Nat))] "a" 7).2 = ["a"] := by decide

/-- C2 amended: a `Client.Send` whose target queue has room appends exactly
that frame and closes nothing; a `Client.Send` on a full queue drops the
frame and unregisters the connection from the hub (its queue is closed and
its entry removed).  In both cases the function is total (the caller never
blocks). -/
theorem spec_c2_send_full_unregisters {M : Type} (h : HubClients M) (id : String)
    (c : HClient M) (msg : M) (hc : lookupC id h = some c) :
    (c.queue.length < c.cap →
      clientSend h id msg =
        ((h.map fun p => if p.1 = id then (p.1, ⟨p.2.queue ++ [msg], p.2.cap⟩) else p), [])) ∧
    (¬ c.queue.length < c.cap →
      clientSend h id msg = (removeC id h, [id]) ∧
      lookupC id (clientSend h id msg).1 = none) := by
  constructor
  · intro hroom; simp [clientSend, hc, hroom]
  · intro hfull
    have h1 : clientSend h id msg = (removeC id h, [id]) := by
      simp [clientSend, hc, hfull, hubUnregister]
    exact ⟨h1, by rw [h1]; exact lookupC_removeC id h⟩

theorem spec_c2_witness :
    ((2:Nat) < 3 ∧
      clientSend [("a", (⟨[5, 5], 3⟩ : HClient Nat))] "a" 7 = ([("a", ⟨[5, 5, 7], 3⟩)], [])) ∧
    (¬ (3:Nat) < 3 ∧
      clientSend [("a", (⟨[5, 5, 5], 3⟩ : HClient Nat))] "a" 7 = ([], ["a"])) :=
  ⟨⟨by decide,
    by
      have := (spec_c2_send_full_unregisters [("a", (⟨[5, 5], 3⟩ : HClient Nat))] "a"
        ⟨[5, 5], 3⟩ 7 (by decide)).1 (by decide)
      simpa using this⟩,
   ⟨by decide,
    by
      have := ((spec_c2_send_full_unregisters [("a", (⟨[5, 5, 5], 3⟩ : HClient Nat))] "a"
        ⟨[5, 5, 5], 3⟩ 7 (by decide)).2 (by decide)).1
      simpa [removeC] using this⟩⟩

/-! ## Claim C9: server read pump termination -/

/-- C9: whatever read error terminates the server read pump — close frames of
any code, network errors, and read-deadline expiry alike — the pump emits a
`close` event and the connection ends up absent from the hub's client map;
an `error` event is emitted exactly for unexpected close errors (close codes
other than 1001 going-away and 1006 abnormal-closure), in particular never
for idle timeout. -/
theorem spec_c9_read_pump_termination {M : Type} (h : HubClients M) (id : String)
    (e : ReadErr) :
    WsEvent.closeEv ∈ (readPumpTerminate h id e).1 ∧
    lookupC id (readPumpTerminate h id e).2 = none ∧
    (WsEvent.errorEv ∈ (readPumpTerminate h id e).1 ↔ isUnexpectedCloseError e = true) ∧
    (e = .netError → (readPumpTerminate h id e).1 = [WsEvent.closeEv]) := by
  refine ⟨?_, ?_, ?_, ?_⟩
  · simp [readPumpTerminate]
  · simp only [readPumpTerminate]
    cases hid : lookupC id h with
    | none => simp [hubUnregister, hid]
    | some c => simp [hubUnregister, hid, lookupC_removeC]
  · cases he : isUnexpectedCloseError e <;> simp [readPumpTerminate, he]
  · intro he; simp [readPumpTerminate, he, isUnexpectedCloseError]

/-! ## Claim C7: one `reconnecting` event per losing streak -/

theorem connectRun_fail_streak_silent (n : Nat) :
    ∀ c : Nat, connectRun (c + 1) (List.replicate n .dialFail) = ([], false) := by
  induction n with
  | zero => intro c; rfl
  | succ m ih =>
    intro c
    simp only [List.replicate, connectRun, ih (c + 1), Nat.succ_ne_zero, if_neg]
    simp

/-- C7: over a losing streak of `n + 1` consecutive dial failures starting
with a fresh attempt counter, the connector fires the `reconnecting` event
exactly once, on the first attempt of the streak; with the counter already
past the first attempt, the remaining retries of the streak fire no event at
all (in particular, not one `reconnecting` per attempt). -/
theorem spec_c7_reconnecting_once_per_streak (n cnt : Nat) :
    (connectRun 0 (List.replicate (n + 1) .dialFail)).1 = [WsEvent.reconnectingEv] ∧
    (connectRun (cnt + 1) (List.replicate n .dialFail)).1 = [] := by
  constructor
  · simp [List.replicate, connectRun, connectRun_fail_streak_silent n 0]
  · simp [connectRun_fail_streak_silent n cnt]


/-! ## Claim C8: the control loop exits only on explicit stop -/

/-- No input of the trace is a stop request or a context cancellation. -/
def noStopB (trace : List TickInput) : Bool := trace.all (fun i => !isStopInput i)

/-- The attempt counter after processing a trace of non-stop inputs: a failed
dial increments it, a successful dial resets it to 0. -/
def streakCnt : Nat → List TickInput → Nat
  | cnt, [] => cnt
  | cnt, .dialFail :: tl => streakCnt (cnt + 1) tl
  | _, .dialOk _ :: tl => streakCnt 0 tl
  | cnt, .ctxDone :: _ => cnt
  | cnt, .stopReq :: _ => cnt

theorem noStopB_cons {i : TickInput} {tl : List TickInput}
    (h : noStopB (i :: tl) = true) : isStopInput i = false ∧ noStopB tl = true := by
  constructor
  · simpa using List.all_eq_true.mp h i (by simp)
  · exact List.all_eq_true.mpr fun x hx => List.all_eq_true.mp h x (by simp [hx])

theorem connectRun_noStop (pre : List TickInput) :
    ∀ cnt : Nat, noStopB pre = true →
      (connectRun cnt pre).2 = false ∧ WsEvent.closeEv ∉ (connectRun cnt pre).1 := by
  induction pre with
  | nil => exact fun cnt _ => ⟨rfl, by simp [connectRun]⟩
  | cons i tl ih =>
    intro cnt hpre
    obtain ⟨hi, htl⟩ := noStopB_cons hpre
    cases i with
    | ctxDone => simp [isStopInput] at hi
    | stopReq => simp [isStopInput] at hi
    | dialFail =>
      obtain ⟨h2, h3⟩ := ih (cnt + 1) htl
      refine ⟨by simpa [connectRun] using h2, ?_⟩
      simp only [connectRun, List.mem_append]
      rintro (hmem | hmem)
      · split at hmem <;> simp at hmem
      · exact h3 hmem
    | dialOk se =>
      obtain ⟨h2, h3⟩ := ih 0 htl
      refine ⟨by simpa [connectRun] using h2, ?_⟩
      simp only [connectRun, List.append_assoc, List.mem_append, List.mem_singleton]
      rintro (hmem | hmem | hmem)
      · split at hmem <;> simp at hmem
      · simp at hmem
      · rcases hmem with hmem | hmem
        · split at hmem <;> simp at hmem
        · exact h3 hmem

theorem connectRun_append (pre rest : List TickInput) :
    ∀ cnt : Nat, noStopB pre = true →
      connectRun cnt (pre ++ rest) =
        ((connectRun cnt pre).1 ++ (connectRun (streakCnt cnt pre) rest).1,
         (connectRun (streakCnt cnt pre) rest).2) := by
  induction pre with
  | nil => intro cnt _; simp [connectRun, streakCnt]
  | cons i tl ih =>
    intro cnt hpre
    obtain ⟨hi, htl⟩ := noStopB_cons hpre
    cases i with
    | ctxDone => simp [isStopInput] at hi
    | stopReq => simp [isStopInput] at hi
    | dialFail =>
      simp only [List.cons_append, connectRun, streakCnt, List.append_assoc]
      rw [show tl.append rest = tl ++ rest from rfl, ih (cnt + 1) htl]
    | dialOk se =>
      simp only [List.cons_append, connectRun, streakCnt, List.append_assoc]
      rw [show tl.append rest = tl ++ rest from rfl, ih 0 htl]

/-- C8: over any trace of dial failures and dial successes (their sessions
ending in connection loss), the control loop neither exits nor fires a
`close` event — retries are unbounded; when a stop request or context
cancellation arrives after such a trace, the loop fires `close` exactly once,
exits, and ignores everything after the stop (it is never re-entered). -/
theorem spec_c8_loop_exits_only_on_stop (cnt : Nat) (pre post : List TickInput)
    (s : TickInput) (hpre : noStopB pre = true) (hs : isStopInput s = true) :
    (connectRun cnt pre).2 = false ∧
    WsEvent.closeEv ∉ (connectRun cnt pre).1 ∧
    connectRun cnt (pre ++ s :: post) =
      ((connectRun cnt pre).1 ++ [WsEvent.closeEv], true) := by
  obtain ⟨h1, h2⟩ := connectRun_noStop pre cnt hpre
  refine ⟨h1, h2, ?_⟩
  rw [connectRun_append pre (s :: post) cnt hpre]
  cases s with
  | ctxDone => rfl
  | stopReq => rfl
  | dialFail => simp [isStopInput] at hs
  | dialOk se => simp [isStopInput] at hs

theorem spec_c8_witness :
    noStopB [.dialFail, .dialOk false, .dialFail] = true ∧
    isStopInput .stopReq = true ∧
    connectRun 0 ([.dialFail, .dialOk false, .dialFail] ++ .stopReq :: [.dialFail]) =
      ((connectRun 0 [.dialFail, .dialOk false, .dialFail]).1 ++ [WsEvent.closeEv], true) :=
  ⟨by decide, by decide,
   (spec_c8_loop_exits_only_on_stop 0 [.dialFail, .dialOk false, .dialFail]
      [.dialFail] .stopReq (by decide) (by decide)).2.2⟩

/-! ## Claim C1: broadcast evicts the saturated recipient, delivers to the rest -/

theorem lookupC_eq_none_of_not_mem {M : Type} {id : String} {h : HubClients M}
    (hnm : id ∉ h.map Prod.fst) : lookupC id h = none := by
  induction h with
  | nil => rfl
  | cons p tl ih =>
    obtain ⟨k, c⟩ := p
    simp only [List.map_cons, List.mem_cons, not_or] at hnm
    simp only [lookupC, if_neg hnm.1]
    exact ih hnm.2

theorem lookupC_map_value {M : Type} (id : String) (h : HubClients M)
    (f : HClient M → HClient M) :
    lookupC id (h.map fun p => (p.1, f p.2)) = (lookupC id h).map f := by
  induction h with
  | nil => rfl
  | cons p tl ih =>
    obtain ⟨k, c⟩ := p
    by_cases hk : id = k
    · simp [lookupC, hk]
    · simp [lookupC, hk, ih]

/-- When every client's queue has room, broadcast appends the message to every
queue and closes nothing. -/
theorem hubBroadcast_all_room {M : Type} (msg : M) (h : HubClients M)
    (hr : ∀ p ∈ h, p.2.queue.length < p.2.cap) :
    hubBroadcast msg h = (h.map fun p => (p.1, ⟨p.2.queue ++ [msg], p.2.cap⟩), []) := by
  induction h with
  | nil => rfl
  | cons p tl ih =>
    obtain ⟨k, c⟩ := p
    have hhead : c.queue.length < c.cap := hr (k, c) (by simp)
    have htl := ih fun q hq => hr q (by simp [hq])
    simp [hubBroadcast, htl, hhead]

/-- C1: in a hub state where exactly client `k`'s queue is at capacity (every
other client's queue is below its capacity), processing `broadcast(msg)`
removes `k` from the client map, closes exactly `k`'s queue, leaves every
other client registered with exactly one copy of `msg` appended to its queue,
and shrinks the client count by one. -/
theorem spec_c1_broadcast_evicts_saturated {M : Type} (msg : M) (h : HubClients M)
    (k : String) (ck : HClient M)
    (hnd : (h.map Prod.fst).Nodup)
    (hk : lookupC k h = some ck)
    (hfull : ck.queue.length = ck.cap)
    (hothers : ∀ p ∈ h, p.1 ≠ k → p.2.queue.length < p.2.cap) :
    lookupC k (hubBroadcast msg h).1 = none ∧
    (hubBroadcast msg h).2 = [k] ∧
    (∀ id c, id ≠ k → lookupC id h = some c →
      lookupC id (hubBroadcast msg h).1 = some ⟨c.queue ++ [msg], c.cap⟩) ∧
    (hubBroadcast msg h).1.length + 1 = h.length := by
  induction h with
  | nil => simp [lookupC] at hk
  | cons p tl ih =>
    obtain ⟨k0, c0⟩ := p
    simp only [List.map_cons, List.nodup_cons] at hnd
    by_cases hkk : k = k0
    · -- the head is the saturated client
      subst hkk
      have hc0 : c0 = ck := by simpa [lookupC] using hk
      subst hc0
      have hnotin : ∀ p ∈ tl, p.1 ≠ k := by
        intro q hq hq1
        exact hnd.1 (hq1 ▸ List.mem_map_of_mem Prod.fst hq)
      have hroom : ∀ p ∈ tl, p.2.queue.length < p.2.cap := by
        intro q hq
        exact hothers q (by simp [hq]) (hnotin q hq)
      have hbtl := hubBroadcast_all_room msg tl hroom
      have hnf : ¬ c0.queue.length < c0.cap := by omega
      refine ⟨?_, ?_, ?_, ?_⟩
      · simp only [hubBroadcast, hbtl, if_neg hnf]
        refine lookupC_eq_none_of_not_mem ?_
        intro hmem
        simp only [List.map_map] at hmem
        have : k ∈ tl.map Prod.fst := by
          simpa [Function.comp] using hmem
        exact hnd.1 this
      · simp [hubBroadcast, hbtl, if_neg hnf]
      · intro id c hid hlc
        have hlc' : lookupC id tl = some c := by
          simpa [lookupC, if_neg hid] using hlc
        simp only [hubBroadcast, hbtl, if_neg hnf]
        have hmv := lookupC_map_value id tl (fun c => ⟨c.queue ++ [msg], c.cap⟩)
        rw [hlc'] at hmv
        simpa using hmv
      · simp [hubBroadcast, hbtl, if_neg hnf]
    · -- the head has room; the saturated client is in the tail
      have hk' : lookupC k tl = some ck := by
        simpa [lookupC, if_neg hkk] using hk
      have hhead : c0.queue.length < c0.cap :=
        hothers (k0, c0) (by simp) (fun he => hkk he.symm)
      obtain ⟨ih1, ih2, ih3, ih4⟩ := ih hnd.2 hk'
        (fun q hq hq1 => hothers q (by simp [hq]) hq1)
      refine ⟨?_, ?_, ?_, ?_⟩
      · simp only [hubBroadcast, if_pos hhead]
        simpa [lookupC, if_neg hkk] using ih1
      · simp [hubBroadcast, if_pos hhead, ih2]
      · intro id c hid hlc
        by_cases hid0 : id = k0
        · obtain rfl : c0 = c := by simpa [lookupC, hid0] using hlc
          simp [hubBroadcast, if_pos hhead, lookupC, hid0]
        · have hlc' : lookupC id tl = some c := by
            simpa [lookupC, if_neg hid0] using hlc
          simp only [hubBroadcast, if_pos hhead, lookupC, if_neg hid0]
          exact ih3 id c hid hlc'
      · simp only [hubBroadcast, if_pos hhead, List.length_cons]
        omega

theorem spec_c1_witness :
    lookupC "a" (hubBroadcast 7 [("a", (⟨[9, 9], 2⟩ : HClient Nat)),
      ("b", ⟨[], 2⟩), ("c", ⟨[1], 2⟩)]).1 = none ∧
    (hubBroadcast 7 [("a", (⟨[9, 9], 2⟩ : HClient Nat)),
      ("b", ⟨[], 2⟩), ("c", ⟨[1], 2⟩)]).2 = ["a"] ∧
    lookupC "b" (hubBroadcast 7 [("a", (⟨[9, 9], 2⟩ : HClient Nat)),
      ("b", ⟨[], 2⟩), ("c", ⟨[1], 2⟩)]).1 = some ⟨[7], 2⟩ ∧
    lookupC "c" (hubBroadcast 7 [("a", (⟨[9, 9], 2⟩ : HClient Nat)),
      ("b", ⟨[], 2⟩), ("c", ⟨[1], 2⟩)]).1 = some ⟨[1, 7], 2⟩ :=
  ⟨(spec_c1_broadcast_evicts_saturated 7 _ "a" ⟨[9, 9], 2⟩ (by decide) (by decide)
      (by decide) (by decide)).1,
   (spec_c1_broadcast_evicts_saturated 7 _ "a" ⟨[9, 9], 2⟩ (by decide) (by decide)
      (by decide) (by decide)).2.1,
   (spec_c1_broadcast_evicts_saturated 7 _ "a" ⟨[9, 9], 2⟩ (by decide) (by decide)
      (by decide) (by decide)).2.2.1 "b" ⟨[], 2⟩ (by decide) (by decide),
   (spec_c1_broadcast_evicts_saturated 7 _ "a" ⟨[9, 9], 2⟩ (by decide) (by decide)
      (by decide) (by decide)).2.2.1 "c" ⟨[1], 2⟩ (by decide) (by decide)⟩

/-! ## Claim C3: encode/decode round trip of Payloads -/

theorem marshalKVs_keys : ∀ (l : GoKVs) (jl : JKVs),
    marshalKVs l = some jl → jKeys jl = goKeys l
  | .nil, jl, hm => by cases hm; rfl
  | .cons k v tl, jl, hm => by
    cases hmv : marshalVal v with
    | none => simp [marshalKVs, hmv] at hm
    | some j =>
      cases hmt : marshalKVs tl with
      | none => simp [marshalKVs, hmv, hmt] at hm
      | some jtl =>
        simp only [marshalKVs, hmv, hmt] at hm
        cases hm
        simp [jKeys, goKeys, marshalKVs_keys tl jtl hmt]

theorem mem_jKeys_insertJ (a k : String) (v : Json) : ∀ x : JKVs,
    a ∈ jKeys (insertJ k v x) ↔ a = k ∨ a ∈ jKeys x
  | .nil => by simp [insertJ, jKeys]
  | .cons k2 v2 tl => by
    by_cases hlt : k < k2
    · simp [insertJ, hlt, jKeys]
    · simp only [insertJ, if_neg hlt, jKeys, List.mem_cons, mem_jKeys_insertJ a k v tl]
      tauto

theorem mem_jKeys_sortJKVs (a : String) : ∀ x : JKVs,
    a ∈ jKeys (sortJKVs x) ↔ a ∈ jKeys x
  | .nil => by simp [sortJKVs]
  | .cons k v tl => by
    simp [sortJKVs, jKeys, mem_jKeys_insertJ, mem_jKeys_sortJKVs a tl]

theorem lookupJ_insertJ (k1 : String) (v1 : Json) : ∀ (x : JKVs), k1 ∉ jKeys x →
    ∀ k, lookupJ k (insertJ k1 v1 x) = if k = k1 then some v1 else lookupJ k x
  | .nil, _, k => by simp [insertJ, lookupJ]
  | .cons k2 v2 tl, hk1, k => by
    simp only [jKeys, List.mem_cons, not_or] at hk1
    by_cases hlt : k1 < k2
    · simp [insertJ, hlt, lookupJ]
    · simp only [insertJ, if_neg hlt, lookupJ, lookupJ_insertJ k1 v1 tl hk1.2]
      by_cases hA : k = k2 <;> by_cases hB : k = k1 <;> simp_all

theorem lookupJ_sortJKVs : ∀ (x : JKVs), (jKeys x).Nodup →
    ∀ k, lookupJ k (sortJKVs x) = lookupJ k x
  | .nil, _, k => rfl
  | .cons k1 v1 tl, hnd, k => by
    simp only [jKeys, List.nodup_cons] at hnd
    have hnotin : k1 ∉ jKeys (sortJKVs tl) := by
      rw [mem_jKeys_sortJKVs]; exact hnd.1
    simp only [sortJKVs, lookupJ_insertJ k1 v1 (sortJKVs tl) hnotin,
      lookupJ_sortJKVs tl hnd.2, lookupJ]

theorem strSorted_sortJKVs_id : ∀ x : JKVs,
    strSorted (jKeys x) = true → sortJKVs x = x
  | .nil, _ => rfl
  | .cons _ _ .nil, _ => rfl
  | .cons k v (.cons k2 v2 tl2), hs => by
    simp only [jKeys, strSorted, Bool.and_eq_true, decide_eq_true_eq] at hs
    have hid : sortJKVs (JKVs.cons k2 v2 tl2) = JKVs.cons k2 v2 tl2 :=
      strSorted_sortJKVs_id (JKVs.cons k2 v2 tl2) (by simp [jKeys, strSorted, hs.2])
    rw [sortJKVs, hid, insertJ, if_pos hs.1]

mutual
/-- Unmarshalling the marshalled form of a decoded-domain value returns the
value itself. -/
theorem marshal_roundtrip_val : ∀ v : GoVal, decodedVal v = true →
    (marshalVal v).map unmarshalVal = some v
  | .vNull, _ => rfl
  | .vBool b, _ => rfl
  | .vFloat q, _ => rfl
  | .vStr s, _ => rfl
  | .vInt n, h => by simp [decodedVal] at h
  | .vBad, h => by simp [decodedVal] at h
  | .vArr l, h => by
    have hd : decodedList l = true := by simpa [decodedVal] using h
    have ih := marshal_roundtrip_list l hd
    cases hml : marshalList l with
    | none => rw [hml] at ih; simp at ih
    | some jl =>
      rw [hml] at ih
      simp only [Option.map_some', Option.some.injEq] at ih
      simp [marshalVal, hml, unmarshalVal, ih]
  | .vObj l, h => by
    have h1 : decodedKVs l = true ∧ strSorted (goKeys l) = true := by
      simpa [decodedVal, Bool.and_eq_true] using h
    have ih := marshal_roundtrip_kvs l h1.1
    cases hml : marshalKVs l with
    | none => rw [hml] at ih; simp at ih
    | some jl =>
      rw [hml] at ih
      simp only [Option.map_some', Option.some.injEq] at ih
      have hkeys : jKeys jl = goKeys l := marshalKVs_keys l jl hml
      have hsorted : strSorted (jKeys jl) = true := by rw [hkeys]; exact h1.2
      have hid : sortJKVs jl = jl := strSorted_sortJKVs_id jl hsorted
      simp [marshalVal, hml, hid, unmarshalVal, ih]
/-- Elementwise round trip for array values. -/
theorem marshal_roundtrip_list : ∀ l : GoList, decodedList l = true →
    (marshalList l).map unmarshalList = some l
  | .nil, _ => rfl
  | .cons v tl, h => by
    have h1 : decodedVal v = true ∧ decodedList tl = true := by
      simpa [decodedList, Bool.and_eq_true] using h
    have ihv := marshal_roundtrip_val v h1.1
    have iht := marshal_roundtrip_list tl h1.2
    cases hmv : marshalVal v with
    | none => rw [hmv] at ihv; simp at ihv
    | some j =>
      cases hmt : marshalList tl with
      | none => rw [hmt] at iht; simp at iht
      | some jtl =>
        rw [hmv] at ihv; rw [hmt] at iht
        simp only [Option.map_some', Option.some.injEq] at ihv iht
        simp [marshalList, hmv, hmt, unmarshalList, ihv, iht]
/-- Entrywise round trip for object values. -/
theorem marshal_roundtrip_kvs : ∀ l : GoKVs, decodedKVs l = true →
    (marshalKVs l).map unmarshalJKVs = some l
  | .nil, _ => rfl
  | .cons k v tl, h => by
    have h1 : decodedVal v = true ∧ decodedKVs tl = true := by
      simpa [decodedKVs, Bool.and_eq_true] using h
    have ihv := marshal_roundtrip_val v h1.1
    have iht := marshal_roundtrip_kvs tl h1.2
    cases hmv : marshalVal v with
    | none => rw [hmv] at ihv; simp at ihv
    | some j =>
      cases hmt : marshalKVs tl with
      | none => rw [hmt] at iht; simp at iht
      | some jtl =>
        rw [hmv] at ihv; rw [hmt] at iht
        simp only [Option.map_some', Option.some.injEq] at ihv iht
        simp [marshalKVs, hmv, hmt, unmarshalJKVs, ihv, iht]
end

/-- Lookup in an unmarshalled object is the unmarshalled lookup. -/
theorem lookupGo_unmarshalJKVs (k : String) : ∀ x : JKVs,
    lookupGo k (unmarshalJKVs x) = (lookupJ k x).map unmarshalVal
  | .nil => rfl
  | .cons k2 j tl => by
    by_cases hk : k = k2
    · simp [unmarshalJKVs, lookupGo, lookupJ, hk]
    · simp [unmarshalJKVs, lookupGo, lookupJ, hk, lookupGo_unmarshalJKVs k tl]

/-- Counterexample to C3 as stated: the Payload `{"a": int(3)}` (a Go `int`
value, which is JSON-representable) does not round-trip to the same key/value
set — JSON has one number kind, so decoding returns `float64(3)`, and Go
`int(3)` and `float64(3)` are distinct values (`reflect.DeepEqual` is false). -/
theorem spec_c3_counterexample :
    ¬ kvSetEq (NewWsData (ToJSON (GoKVs.cons "a" (.vInt 3) .nil)))
      (GoKVs.cons "a" (.vInt 3) .nil) :=
  fun hcl => absurd (hcl "a") (by decide)

/-- C3 amended: for every Payload whose values lie in the image of JSON
decoding (null, bool, `float64` numbers, strings, and nested arrays/objects
of such values — no Go `int`s and nothing unmarshalable) and whose keys are
distinct, decoding the bytes produced by encoding it yields a Payload with
the same key/value set, independent of key order. -/
theorem spec_c3_roundtrip_decoded (w : WsData) (k : String)
    (hdec : decodedKVs w = true) (hnd : (goKeys w).Nodup) :
    lookupGo k (NewWsData (ToJSON w)) = lookupGo k w := by
  have ih := marshal_roundtrip_kvs w hdec
  cases hml : marshalKVs w with
  | none => rw [hml] at ih; simp at ih
  | some jl =>
    rw [hml] at ih
    simp only [Option.map_some', Option.some.injEq] at ih
    have hkeys : jKeys jl = goKeys w := marshalKVs_keys w jl hml
    have hndj : (jKeys jl).Nodup := by rw [hkeys]; exact hnd
    have hToJ : ToJSON w = .wf (.jObj (sortJKVs jl)) := by
      simp [ToJSON, hml]
    rw [hToJ]
    show lookupGo k (unmarshalJKVs (sortJKVs jl)) = lookupGo k w
    rw [lookupGo_unmarshalJKVs, lookupJ_sortJKVs jl hndj, ← lookupGo_unmarshalJKVs, ih]

theorem spec_c3_witness :
    decodedKVs (GoKVs.cons "b" (.vStr "x") (.cons "a" .vNull .nil)) = true ∧
    lookupGo "a" (NewWsData (ToJSON (GoKVs.cons "b" (.vStr "x") (.cons "a" .vNull .nil)))) =
      lookupGo "a" (GoKVs.cons "b" (.vStr "x") (.cons "a" .vNull .nil)) :=
  ⟨by decide,
   spec_c3_roundtrip_decoded (GoKVs.cons "b" (.vStr "x") (.cons "a" .vNull .nil)) "a"
     (by decide) (by decide)⟩

theorem spec_c9_witness :
    (readPumpTerminate [("a", (⟨[], 2⟩ : HClient Nat))] "a" .netError).1 =
      [WsEvent.closeEv] ∧
    lookupC "a" (readPumpTerminate [("a", (⟨[], 2⟩ : HClient Nat))] "a" .netError).2 =
      none :=
  ⟨(spec_c9_read_pump_termination [("a", (⟨[], 2⟩ : HClient Nat))] "a" .netError).2.2.2 rfl,
   (spec_c9_read_pump_termination [("a", (⟨[], 2⟩ : HClient Nat))] "a" .netError).2.1⟩

/-- Counterexample to C10's "returns 0 only when the key is absent or holds a
non-numeric value": for the stored numeric value `float64(0.5)` the truncation
itself is 0, so `Int` returns 0 with the key present and numeric. -/
theorem spec_c10_counterexample :
    lookupGo "x" (GoKVs.cons "x" (.vFloat (Rat.mk' 1 2)) .nil) =
      some (.vFloat (Rat.mk' 1 2)) ∧
    isNumV (.vFloat (Rat.mk' 1 2)) = true ∧
    wsInt (GoKVs.cons "x" (.vFloat (Rat.mk' 1 2)) .nil) "x" = 0 := by decide
